import Mathlib

/-!
# Verification of the mt-receiver multi-threaded server core (`src/mt_server.c`)

Shallow embedding of the server's data structures and per-connection
behaviour, and proofs of the specification's claims about them.

* `ClientManager` models `client_manager_t`: the live prefix
  `client_fds[0..count)` of the fixed array is modelled as a `List Int`
  (all reads and writes in the source touch only this prefix);
  `count` is its length.
* The connection queue `conn_queue_t` is modelled as the `List Int` of
  pending descriptors from head to tail.
* The worker / sender lifecycle of one connection is modelled as a step
  relation on an explicit state.
-/

namespace MTServer

/-- `#define MAX_CLIENTS 100` in `mt_server.c`. -/
def MAX_CLIENTS : Nat := 100

/-- `#define NUM_WORKER_THREADS 4` in `mt_server.c`. -/
def NUM_WORKER_THREADS : Nat := 4

/-- Model of `client_manager_t`: the live prefix `client_fds[0..count)`
as a list; `count` is the list's length. -/
structure ClientManager where
  client_fds : List Int
deriving Repr, DecidableEq

/-- The `count` field of `client_manager_t`. -/
def ClientManager.count (cm : ClientManager) : Nat :=
  cm.client_fds.length

/-- `init_client_manager`: `cm->count = 0` (allocation assumed to succeed;
on failure the process exits before any operation runs). -/
def init_client_manager : ClientManager := ⟨[]⟩

/-- `add_client`: under the lock, if `count < MAX_CLIENTS` store `fd` at
index `count` and increment `count`; otherwise print a warning and leave
the manager untouched. -/
def add_client (cm : ClientManager) (fd : Int) : ClientManager :=
  if cm.count < MAX_CLIENTS then ⟨cm.client_fds ++ [fd]⟩ else cm

/-- Index of the first occurrence of `fd`, mirroring the scan
`for(i = 0; i < cm->count; i++) if(cm->client_fds[i] == fd)` in
`remove_client`. -/
def findFirst (fd : Int) : List Int → Option Nat
  | [] => none
  | x :: xs => if x = fd then some 0 else (findFirst fd xs).map Nat.succ

/-- `remove_client`: scan for the first occurrence of `fd`; if found at
index `i`, overwrite slot `i` with the last live slot
(`client_fds[i] = client_fds[count-1]`) and decrement `count`; if not
found, leave the manager untouched. -/
def remove_client (cm : ClientManager) (fd : Int) : ClientManager :=
  match findFirst fd cm.client_fds with
  | none => cm
  | some i => ⟨((cm.client_fds.set i (cm.client_fds.getLastD 0)).dropLast)⟩

/-- Loop body of `broadcast_to_clients`: try `send` on every live slot in
index order; a failed send is reported via `perror` and the loop moves on.
`sendOk fd` abstracts whether `send(fd, …) ≥ 0`.  Returns the descriptors
to which the payload was delivered, in send order (one entry per stored
occurrence). -/
def broadcastLoop (sendOk : Int → Bool) : List Int → List Int
  | [] => []
  | fd :: rest =>
      if sendOk fd then fd :: broadcastLoop sendOk rest
      else broadcastLoop sendOk rest

/-- `broadcast_to_clients`: under the lock, iterate over all `count` live
slots and send the payload to each; the manager itself is only read,
never written.  Result: the (unchanged) manager and the list of
descriptors that received the payload. -/
def broadcast_to_clients (cm : ClientManager) (sendOk : Int → Bool) :
    ClientManager × List Int :=
  (cm, broadcastLoop sendOk cm.client_fds)

/-- A registry operation: the only two mutators of `client_manager_t`. -/
inductive RegOp
  | add (fd : Int)
  | remove (fd : Int)
deriving Repr, DecidableEq

/-- Apply one registry operation. -/
def applyRegOp (cm : ClientManager) : RegOp → ClientManager
  | .add fd => add_client cm fd
  | .remove fd => remove_client cm fd

/-- Apply a sequence of registry operations left to right. -/
def applyRegOps (cm : ClientManager) (ops : List RegOp) : ClientManager :=
  ops.foldl applyRegOp cm

/-! ## Connection queue (`conn_queue_t`) -/

/-- `enqueue`: `malloc` a node; if allocation fails, `perror` a diagnostic
and return with the queue untouched; otherwise append the node at the
tail under the lock and signal one waiter.  `allocOk` abstracts the
`malloc` outcome; the `Bool` result records whether the diagnostic was
emitted (i.e. the connection was dropped). -/
def enqueue (q : List Int) (connfd : Int) (allocOk : Bool) :
    List Int × Bool :=
  if allocOk then (q ++ [connfd], false) else (q, true)

/-- `dequeue`: under the lock, wait while the queue is empty (`none`
models the blocked wait — `dequeue` never returns a sentinel); otherwise
remove and return the head node's descriptor. -/
def dequeue : List Int → Option (Int × List Int)
  | [] => none
  | x :: xs => some (x, xs)

/-- A queue operation as seen in a serialized trace: an `enqueue` by the
listener (with its `malloc` outcome) or a `dequeue` attempt by a worker. -/
inductive QOp
  | enq (fd : Int) (allocOk : Bool)
  | deq
deriving Repr, DecidableEq

/-- Trace state of the queue: the pending sequence plus the histories of
successfully enqueued and dequeued descriptors, each oldest first. -/
structure QState where
  queue : List Int
  enqueued : List Int
  dequeued : List Int
deriving Repr, DecidableEq

/-- The initial queue state after `init_queue`. -/
def qInit : QState := ⟨[], [], []⟩

/-- One serialized queue operation.  A `deq` on an empty queue blocks on
the condition variable, changing nothing until a later `enq`. -/
def qstep (s : QState) : QOp → QState
  | .enq fd allocOk =>
      let r := enqueue s.queue fd allocOk
      if allocOk then { s with queue := r.1, enqueued := s.enqueued ++ [fd] }
      else s
  | .deq =>
      match dequeue s.queue with
      | none => s
      | some (x, rest) =>
          { s with queue := rest, dequeued := s.dequeued ++ [x] }

/-- Run a trace of queue operations from the initial state. -/
def qrun (ops : List QOp) : QState :=
  ops.foldl qstep qInit

/-! ## Per-connection lifecycle (`worker_thread` + `sender_thread`)

`worker_thread` dequeues `connfd`, spawns `sender_thread` on the same
descriptor, runs `recv` in a loop, and after the loop ends (peer close or
error) calls `close(connfd)`.  `sender_thread` loops `send`/`sleep`; when
a `send` fails it `perror`s, breaks, and then also calls `close(connfd)`.
The state below tracks both loops and how many times `close` has been
called on the shared descriptor. -/

/-- Phase of the spawned `sender_thread` for one connection. -/
inductive SenderPhase
  | looping
  | closedSocket
deriving Repr, DecidableEq

/-- Phase of the owning worker's inbound `recv` loop for one connection. -/
inductive WorkerPhase
  | reading
  | closedSocket
deriving Repr, DecidableEq

/-- Joint state of the two loops sharing one `connfd`, with the number of
`close(connfd)` calls performed so far. -/
structure ConnState where
  sender : SenderPhase
  worker : WorkerPhase
  closes : Nat
deriving Repr, DecidableEq

/-- State right after the worker dequeues the connection and spawns the
sender: both loops running, no `close` yet. -/
def connInit : ConnState := ⟨.looping, .reading, 0⟩

/-- One step of either loop, as written in the source:

* `sendOk` — a `send` in `sender_thread` succeeds; the sender loops.
* `sendFail` — a `send` fails: `perror`, `break`, then `close(connfd)`.
* `recvEnd` — `recv` in `worker_thread` returns `0` (peer close) or a
  negative value (error): the read loop ends, the outcome is logged, and
  the worker calls `close(connfd)`. -/
inductive ConnStep : ConnState → ConnState → Prop
  | sendOk (w : WorkerPhase) (c : Nat) :
      ConnStep ⟨.looping, w, c⟩ ⟨.looping, w, c⟩
  | sendFail (w : WorkerPhase) (c : Nat) :
      ConnStep ⟨.looping, w, c⟩ ⟨.closedSocket, w, c + 1⟩
  | recvEnd (s : SenderPhase) (c : Nat) :
      ConnStep ⟨s, .reading, c⟩ ⟨s, .closedSocket, c + 1⟩

/-- Reachability of a connection state from `connInit`. -/
def ConnReachable (s : ConnState) : Prop :=
  Relation.ReflTransGen ConnStep connInit s

/-! ## What the worker body actually calls (`worker_thread`) -/

/-- The operations a worker performs per connection, in a vocabulary that
also names the registry operations the specification expects. -/
inductive WorkerAction
  | dequeueConn
  | spawnSender
  | recvLoop
  | closeConn
  | registryAdd
  | registryRemove
deriving Repr, DecidableEq

/-- The sequence of calls in the body of `worker_thread`'s `while(1)`
loop, one iteration per connection: `dequeue(&queue)`,
`pthread_create(..., sender_thread, ...)`, the `recv` loop, then
`close(connfd)`.  No call to `add_client` or `remove_client` occurs
anywhere in `worker_thread`. -/
def worker_iteration_actions : List WorkerAction :=
  [.dequeueConn, .spawnSender, .recvLoop, .closeConn]

/-! ## `sender_thread` as a function of its send outcomes -/

/-- Observable result of one terminated run of `sender_thread`'s loop. -/
structure SenderResult where
  messagesSent : Nat
  loggedSendFailure : Bool
  closedSocket : Bool
deriving Repr, DecidableEq

/-- Loop of `sender_thread` over the outcomes of its successive `send`
calls (`true` = `send(...) ≥ 0`).  `none` means every send in the trace
succeeded and the loop is still running; on the first failed send the
thread `perror`s (`loggedSendFailure`), breaks, and then executes the
`close(connfd)` that follows the loop (`closedSocket`). -/
def sender_thread_run : Nat → List Bool → Option SenderResult
  | _, [] => none
  | n, ok :: rest =>
      if ok then sender_thread_run (n + 1) rest
      else some ⟨n, true, true⟩

/-! ## `main`: setup sequence and accept loop -/

/-- Outcomes of the fallible setup calls in `main`, in source order.
Note the source calls `setsockopt` on the not-yet-created `sockfd` and
discards its return value. -/
structure SetupResults where
  setsockoptOk : Bool
  socketOk : Bool
  bindOk : Bool
  listenOk : Bool
deriving Repr, DecidableEq

/-- How `main`'s setup phase ends. -/
inductive MainOutcome
  | exitFailure
  | enteredAcceptLoop
deriving Repr, DecidableEq

/-- Setup phase of `main` as written: the `setsockopt` result is never
tested; `socket`, `bind` and `listen` failures each `perror` and
`exit(EXIT_FAILURE)` before the worker threads are created; otherwise
the workers are started and the accept loop is entered. -/
def main_setup (r : SetupResults) : MainOutcome :=
  if !r.socketOk then .exitFailure
  else if !r.bindOk then .exitFailure
  else if !r.listenOk then .exitFailure
  else .enteredAcceptLoop

/-- Effect of one accept-loop iteration on the process. -/
inductive LoopStep
  | continueLoop (q : List Int)
  | exitProcess
deriving Repr, DecidableEq

/-- One iteration of `main`'s accept loop: a failed `accept` (`none`) is
`perror`ed and the loop `continue`s; a successful one passes the new
descriptor to `enqueue` (whose node allocation may itself fail).  Neither
path leaves the loop or exits the process. -/
def accept_iteration (q : List Int) (acceptResult : Option Int)
    (allocOk : Bool) : LoopStep :=
  match acceptResult with
  | none => .continueLoop q
  | some connfd => .continueLoop (enqueue q connfd allocOk).1

/-! ## Helper lemmas -/

theorem findFirst_eq_none_iff (fd : Int) (l : List Int) :
    findFirst fd l = none ↔ fd ∉ l := by
  induction l with
  | nil => simp [findFirst]
  | cons x xs ih =>
      by_cases h : x = fd
      · subst h; simp [findFirst]
      · have h' : ¬ fd = x := fun hh => h hh.symm
        simp [findFirst, h, Option.map_eq_none', ih, h']

theorem findFirst_split (fd : Int) (l : List Int) (i : Nat)
    (h : findFirst fd l = some i) :
    ∃ pre suf, l = pre ++ fd :: suf ∧ pre.length = i ∧ fd ∉ pre := by
  induction l generalizing i with
  | nil => simp [findFirst] at h
  | cons x xs ih =>
      by_cases hx : x = fd
      · subst hx
        simp [findFirst] at h
        exact ⟨[], xs, rfl, by simp [h], by simp⟩
      · rw [findFirst, if_neg hx] at h
        cases hf : findFirst fd xs with
        | none => rw [hf] at h; simp at h
        | some j =>
            rw [hf] at h
            simp at h
            obtain ⟨pre, suf, hl, hlen, hmem⟩ := ih j hf
            refine ⟨x :: pre, suf, by simp [hl], by simp [hlen, h], ?_⟩
            simp only [List.mem_cons, not_or]
            exact ⟨fun hh => hx hh.symm, hmem⟩

theorem set_append_length (pre suf : List Int) (a z : Int) :
    (pre ++ a :: suf).set pre.length z = pre ++ z :: suf := by
  induction pre with
  | nil => rfl
  | cons p ps ih => simp [ih]

theorem getLastD_append_single (l : List Int) (a d : Int) :
    (l ++ [a]).getLastD d = a := by
  simp

theorem remove_client_not_mem (cm : ClientManager) (fd : Int)
    (h : fd ∉ cm.client_fds) : remove_client cm fd = cm := by
  unfold remove_client
  rw [(findFirst_eq_none_iff fd cm.client_fds).mpr h]

theorem not_mem_remove_client (cm : ClientManager) (fd : Int)
    (hcount : cm.client_fds.count fd ≤ 1) :
    fd ∉ (remove_client cm fd).client_fds := by
  cases hf : findFirst fd cm.client_fds with
  | none =>
      have hmem := (findFirst_eq_none_iff fd cm.client_fds).mp hf
      unfold remove_client
      rw [hf]
      exact hmem
  | some i =>
      obtain ⟨pre, suf, hl, hlen, hpre⟩ := findFirst_split fd cm.client_fds i hf
      have hc : cm.client_fds.count fd = pre.count fd + (suf.count fd + 1) := by
        rw [hl, List.count_append, List.count_cons_self]
      have hsuf : fd ∉ suf := by
        have : suf.count fd = 0 := by omega
        exact List.count_eq_zero.mp this
      have hrc : (remove_client cm fd).client_fds =
          (cm.client_fds.set i (cm.client_fds.getLastD 0)).dropLast := by
        unfold remove_client
        rw [hf]
      rw [hrc]
      rcases List.eq_nil_or_concat suf with hnil | ⟨s, z, hsz⟩
      · subst hnil
        have hlast : cm.client_fds.getLastD 0 = fd := by
          rw [hl]
          simp
        rw [hlast, hl, ← hlen, set_append_length, List.dropLast_concat]
        exact hpre
      · rw [List.concat_eq_append] at hsz
        subst hsz
        have hzs : ¬ fd = z ∧ fd ∉ s := by
          simp only [List.mem_append, List.mem_singleton, not_or] at hsuf
          exact ⟨hsuf.2, hsuf.1⟩
        have hlast : cm.client_fds.getLastD 0 = z := by
          rw [hl]
          have hass : pre ++ fd :: (s ++ [z]) = (pre ++ fd :: s) ++ [z] := by
            simp
          rw [hass, getLastD_append_single]
        rw [hlast, hl, ← hlen, set_append_length]
        have hass : pre ++ z :: (s ++ [z]) = (pre ++ z :: s) ++ [z] := by simp
        rw [hass, List.dropLast_concat]
        simp only [List.mem_append, List.mem_cons, not_or]
        exact ⟨hpre, hzs.1, hzs.2⟩

theorem count_add_client_le (cm : ClientManager) (fd : Int)
    (h : cm.count ≤ MAX_CLIENTS) : (add_client cm fd).count ≤ MAX_CLIENTS := by
  unfold add_client
  by_cases h' : cm.count < MAX_CLIENTS
  · rw [if_pos h']
    simp only [ClientManager.count, List.length_append, List.length_singleton]
    simp only [ClientManager.count] at h'
    omega
  · rw [if_neg h']
    exact h

theorem count_remove_client_le (cm : ClientManager) (fd : Int)
    (h : cm.count ≤ MAX_CLIENTS) : (remove_client cm fd).count ≤ MAX_CLIENTS := by
  unfold remove_client
  cases hf : findFirst fd cm.client_fds with
  | none => exact h
  | some i =>
      simp only [ClientManager.count, List.length_dropLast, List.length_set]
      simp only [ClientManager.count] at h
      omega

theorem applyRegOps_count_le (cm : ClientManager) (ops : List RegOp)
    (h : cm.count ≤ MAX_CLIENTS) :
    (applyRegOps cm ops).count ≤ MAX_CLIENTS := by
  induction ops generalizing cm with
  | nil => exact h
  | cons op rest ih =>
      simp only [applyRegOps, List.foldl_cons] at *
      cases op with
      | add fd => exact ih _ (count_add_client_le cm fd h)
      | remove fd => exact ih _ (count_remove_client_le cm fd h)

theorem add_client_full (cm : ClientManager) (fd : Int)
    (h : cm.count = MAX_CLIENTS) : add_client cm fd = cm := by
  unfold add_client
  rw [if_neg (by omega)]

theorem qstep_preserves_fifo (s : QState) (op : QOp)
    (h : s.enqueued = s.dequeued ++ s.queue) :
    (qstep s op).enqueued = (qstep s op).dequeued ++ (qstep s op).queue := by
  cases op with
  | enq fd allocOk =>
      cases allocOk with
      | true => simp [qstep, enqueue, h]
      | false => simpa [qstep, enqueue] using h
  | deq =>
      cases hq : s.queue with
      | nil => simp only [qstep, dequeue, hq]; rw [h, hq]
      | cons x xs =>
          simp only [qstep, dequeue, hq]
          rw [h, hq]
          simp

theorem qrun_fifo_aux (ops : List QOp) (s : QState)
    (h : s.enqueued = s.dequeued ++ s.queue) :
    (ops.foldl qstep s).enqueued =
      (ops.foldl qstep s).dequeued ++ (ops.foldl qstep s).queue := by
  induction ops generalizing s with
  | nil => exact h
  | cons op rest ih => exact ih _ (qstep_preserves_fifo s op h)

theorem broadcastLoop_eq_filter (sendOk : Int → Bool) (l : List Int) :
    broadcastLoop sendOk l = l.filter sendOk := by
  induction l with
  | nil => rfl
  | cons fd rest ih =>
      by_cases h : sendOk fd <;> simp [broadcastLoop, List.filter_cons, h, ih]

theorem length_filter_add_countP_not (p : Int → Bool) (l : List Int) :
    (l.filter p).length + l.countP (fun a => !(p a)) = l.length := by
  induction l with
  | nil => rfl
  | cons x xs ih =>
      by_cases h : p x <;>
        simp only [List.filter_cons, List.countP_cons, h, if_pos, if_neg,
          Bool.not_true, Bool.not_false, List.length_cons, List.length] <;>
        simp [h] <;> omega

/-! ## Claims -/

/-- **C1.** The claim says the socket of a connection is closed exactly
once, only after both the worker's read loop and the sender loop have
terminated, with no reachable state performing a second close.  The code
violates this: `sender_thread` executes `close(connfd)` after its send
loop breaks, and `worker_thread` executes `close(connfd)` after its
`recv` loop ends, so the per-connection step relation reaches a state in
which `close` has been called twice on the same descriptor (a send
failure followed by the read loop ending). -/
theorem double_close_reachable :
    ConnReachable ⟨SenderPhase.closedSocket, WorkerPhase.closedSocket, 2⟩ := by
  unfold ConnReachable connInit
  exact Relation.ReflTransGen.head (ConnStep.sendFail WorkerPhase.reading 0)
    (Relation.ReflTransGen.single (ConnStep.recvEnd SenderPhase.closedSocket 1))

/-- **C2.** The claim says every worker iteration registers the dequeued
handle via the ClientRegistry before servicing it and removes it when the
read loop terminates.  The code violates this: the body of
`worker_thread` is dequeue → spawn sender → recv loop → close, and it
contains no call to `add_client` or `remove_client` at all. -/
theorem worker_never_touches_registry :
    WorkerAction.registryAdd ∉ worker_iteration_actions ∧
    WorkerAction.registryRemove ∉ worker_iteration_actions := by
  decide

/-- **C3.** The ConnectionQueue is FIFO: `enqueue` appends at the tail,
`dequeue` removes and returns the head (blocking, never a sentinel, when
empty), and over every serialized trace of operations from the empty
queue the history of dequeued descriptors followed by the pending queue
equals the history of enqueued descriptors — handles leave in exactly
the order they entered. -/
theorem queue_fifo (ops : List QOp) (q xs : List Int) (fd x : Int) :
    (enqueue q fd true).1 = q ++ [fd] ∧
    dequeue (x :: xs) = some (x, xs) ∧
    dequeue ([] : List Int) = none ∧
    (qrun ops).enqueued = (qrun ops).dequeued ++ (qrun ops).queue := by
  refine ⟨rfl, rfl, rfl, ?_⟩
  exact qrun_fifo_aux ops qInit rfl

/-- **C4.** Starting from `init_client_manager`, every sequence of
`add_client` / `remove_client` operations keeps
`count ≤ MAX_CLIENTS = 100` (with `count : Nat`, `0 ≤ count` holds by
type), and an `add_client` attempted when `count = MAX_CLIENTS` is
rejected with the manager — count and stored fds — completely
unchanged. -/
theorem registry_bounded (ops : List RegOp) :
    (applyRegOps init_client_manager ops).count ≤ MAX_CLIENTS ∧
    ∀ (cm : ClientManager) (fd : Int),
      cm.count = MAX_CLIENTS → add_client cm fd = cm := by
  refine ⟨applyRegOps_count_le init_client_manager ops (by decide), ?_⟩
  intro cm fd h
  exact add_client_full cm fd h

/-- Witness for `registry_bounded`: a concrete operation sequence stays
within bounds, and an add on a concrete full registry is a no-op. -/
theorem registry_bounded_witness :
    (applyRegOps init_client_manager
        [RegOp.add 1, RegOp.add 2, RegOp.remove 1]).count ≤ MAX_CLIENTS ∧
    ClientManager.count ⟨List.replicate 100 0⟩ = MAX_CLIENTS ∧
    add_client ⟨List.replicate 100 0⟩ 5 = ⟨List.replicate 100 0⟩ :=
  ⟨(registry_bounded [RegOp.add 1, RegOp.add 2, RegOp.remove 1]).1,
   by decide,
   (registry_bounded []).2 ⟨List.replicate 100 0⟩ 5 (by decide)⟩

/-- **C5.** The claim says that on a send failure the sender task logs
and terminates its loop *without closing the socket itself*.  The code
violates the last part: in `sender_thread`, after the failed `send`
triggers `perror` and `break`, the statement `close(connfd)` after the
loop runs, so the sender does close the socket.  Concretely, a run whose
third send fails has sent 2 messages, logged the failure, and closed the
socket. -/
theorem sender_closes_socket_itself :
    sender_thread_run 0 [true, true, false] =
      some ⟨2, true, true⟩ := rfl

/-- **C6.** `broadcast_to_clients` only reads the manager (it is returned
unchanged), delivers to exactly the stored descriptors whose send
succeeds — a failed send is logged and skipped without aborting the rest
of the loop — and when exactly one stored recipient fails, the remaining
`count − 1` still receive the payload. -/
theorem broadcast_best_effort (cm : ClientManager) (sendOk : Int → Bool) :
    (broadcast_to_clients cm sendOk).1 = cm ∧
    (broadcast_to_clients cm sendOk).2 = cm.client_fds.filter sendOk ∧
    (cm.client_fds.countP (fun fd => !(sendOk fd)) = 1 →
      (broadcast_to_clients cm sendOk).2.length = cm.count - 1) := by
  refine ⟨rfl, broadcastLoop_eq_filter sendOk cm.client_fds, ?_⟩
  intro hone
  have hlen := length_filter_add_countP_not sendOk cm.client_fds
  have hb : (broadcast_to_clients cm sendOk).2.length =
      (cm.client_fds.filter sendOk).length := by
    rw [show (broadcast_to_clients cm sendOk).2 =
          broadcastLoop sendOk cm.client_fds from rfl,
        broadcastLoop_eq_filter]
  rw [hb]
  unfold ClientManager.count
  omega

/-- Witness for `broadcast_best_effort`: of the three registered
descriptors `[1, 2, 3]`, exactly one (`2`) fails, and the broadcast still
delivers to the remaining `3 − 1 = 2`. -/
theorem broadcast_best_effort_witness :
    ([1, 2, 3] : List Int).countP (fun fd => !(decide (fd ≠ 2))) = 1 ∧
    (broadcast_to_clients ⟨[1, 2, 3]⟩ (fun fd => decide (fd ≠ 2))).2.length =
      ClientManager.count ⟨[1, 2, 3]⟩ - 1 :=
  ⟨by decide,
   (broadcast_best_effort ⟨[1, 2, 3]⟩ (fun fd => decide (fd ≠ 2))).2.2
     (by decide)⟩

/-- **C7 (amended).** In `main` as written, failures of `socket`, `bind`
or `listen` — and only those — cause `exit(EXIT_FAILURE)` before any
worker thread is created; the return value of `setsockopt` is never
tested, so a socket-option failure does *not* terminate the process; and
an accept-loop iteration never exits the process: a failed `accept` is
logged and the loop continues. -/
theorem setup_fatal_accept_nonfatal (r : SetupResults) (q : List Int)
    (acceptResult : Option Int) (allocOk : Bool) :
    (main_setup r = MainOutcome.exitFailure ↔
      (r.socketOk = false ∨ r.bindOk = false ∨ r.listenOk = false)) ∧
    accept_iteration q acceptResult allocOk ≠ LoopStep.exitProcess := by
  constructor
  · cases r with
    | mk so sk b l => cases sk <;> cases b <;> cases l <;> simp [main_setup]
  · cases acceptResult <;> simp [accept_iteration]

/-- **C7 counterexample.** The claim as stated says a socket-option
setting failure terminates the process with non-zero status; but with
`setsockopt` failing and `socket`/`bind`/`listen` succeeding, `main`
proceeds into the accept loop and does not exit. -/
theorem setsockopt_failure_not_fatal :
    main_setup ⟨false, true, true, true⟩ = MainOutcome.enteredAcceptLoop ∧
    main_setup ⟨false, true, true, true⟩ ≠ MainOutcome.exitFailure := by
  decide

/-- **C8.** `enqueue` never blocks (it is a total function of its
inputs): when node allocation succeeds it appends the descriptor at the
tail and emits no diagnostic; when allocation fails it emits the
diagnostic and returns with the queue exactly as it was — and in a trace,
a failed-allocation enqueue leaves the whole queue state unchanged (the
connection is dropped, no partial insertion). -/
theorem enqueue_no_partial_insertion (q : List Int) (fd : Int) (s : QState) :
    enqueue q fd true = (q ++ [fd], false) ∧
    enqueue q fd false = (q, true) ∧
    qstep s (QOp.enq fd false) = s := by
  refine ⟨rfl, rfl, ?_⟩
  simp [qstep]

/-- **C9.** `remove_client` is idempotent in the claimed sense: removing
a descriptor that is not stored leaves the manager unchanged, and for a
descriptor stored at most once, removing twice equals removing once. -/
theorem remove_client_idempotent (cm : ClientManager) (fd : Int) :
    (fd ∉ cm.client_fds → remove_client cm fd = cm) ∧
    (cm.client_fds.count fd ≤ 1 →
      remove_client (remove_client cm fd) fd = remove_client cm fd) := by
  refine ⟨remove_client_not_mem cm fd, ?_⟩
  intro hcount
  exact remove_client_not_mem _ fd (not_mem_remove_client cm fd hcount)

/-- Witness for `remove_client_idempotent` on the concrete manager
`⟨[1, 2, 3]⟩`: removing the absent `5` is a no-op and removing `2` twice
equals removing it once. -/
theorem remove_client_idempotent_witness :
    remove_client ⟨[1, 2, 3]⟩ 5 = ⟨[1, 2, 3]⟩ ∧
    remove_client (remove_client ⟨[1, 2, 3]⟩ 2) 2 =
      remove_client ⟨[1, 2, 3]⟩ 2 :=
  ⟨(remove_client_idempotent ⟨[1, 2, 3]⟩ 5).1 (by decide),
   (remove_client_idempotent ⟨[1, 2, 3]⟩ 2).2 (by decide)⟩

/-- **C10.** The registry is a multiset, not a set: `add_client` performs
no membership test, so adding descriptor `5` twice from the empty manager
(count `0 < MAX_CLIENTS`) stores it twice with count `2`;
`broadcast_to_clients` then sends to `5` once per stored occurrence (the
delivered list is `[5, 5]`); and a single `remove_client` removes exactly
one occurrence, leaving the other stored. -/
theorem registry_is_multiset :
    add_client (add_client init_client_manager 5) 5 = ⟨[5, 5]⟩ ∧
    (add_client (add_client init_client_manager 5) 5).count = 2 ∧
    (broadcast_to_clients ⟨[5, 5]⟩ (fun _ => true)).2 = [5, 5] ∧
    remove_client ⟨[5, 5]⟩ 5 = ⟨[5]⟩ ∧
    (remove_client ⟨[5, 5]⟩ 5).client_fds.count 5 = 1 := by
  decide

end MTServer
